import Mathlib

set_option linter.unusedVariables false

/-!
Verification of the Yt video-pipeline backend against its specification.

The embedding below translates the pure cores of the backend's pipeline
stages and orchestration endpoints into Lean:

* `web-app/backend/services/step2_silence.py` — silence-trim segment algebra;
* `web-app/backend/services/step5_shorts.py` — short-window snapping and the
  shorts generation loop;
* `web-app/backend/services/step7_integrate_broll.py` — B-roll integration;
* `web-app/backend/tasks.py` — chain construction and registry updates;
* `web-app/backend/routers/projects.py` — reboot, stop and upload endpoints.

Python floats are modelled as rationals (`ℚ`); the few places where the float
computation could diverge from exact rational arithmetic are noted next to the
definitions.  Filesystem state is modelled as an association list from file
names to abstract contents; external processes (ffmpeg, HTTP services) are
modelled as oracle parameters, never as stubs of logic that exists in the
source.
-/

/-- An interval record, as the JSON objects `{"start": ..., "end": ...}` used
by the backend for silences, kept segments and transcript segments.
(`end` is a Lean keyword, so the field is called `stop`.) -/
structure Seg where
  start : ℚ
  stop : ℚ
deriving DecidableEq

/-- A detected silence, as built by `detect_silences`
(step2_silence.py lines 34-53): the `end` field may still be `None` when
ffmpeg never printed a matching `silence_end` line. -/
structure Silence where
  start : ℚ
  stop : Option ℚ
deriving DecidableEq

/-- `s['end'] if s['end'] else s['start']` (step2_silence.py line 66):
Python falsiness makes both `None` and `0.0` fall back to the start. -/
def lastEndOf (s : Silence) : ℚ :=
  match s.stop with
  | none => s.start
  | some e => if e = 0 then s.start else e

/-- The main loop of `get_speech_segments` (step2_silence.py lines 58-70),
including the trailing "Dernier segment" append, parameterised by the
`last_end` accumulator (initially `0.0`).  The `0.1` in the keep-condition is
a literal in the source, independent of `padding`. -/
def segsLoop (padding total_duration : ℚ) : ℚ → List Silence → List Seg
  | last_end, [] =>
      if last_end < total_duration then
        [⟨max 0 (last_end - padding), total_duration⟩]
      else []
  | last_end, s :: rest =>
      let seg_start := if last_end > 0 then max 0 (last_end - padding) else last_end
      let seg_end := min total_duration (s.start + padding)
      let tail := segsLoop padding total_duration (lastEndOf s) rest
      if seg_end > seg_start + 1/10 then ⟨seg_start, seg_end⟩ :: tail else tail

/-- The "Fusionner segments proches" loop of `get_speech_segments`
(step2_silence.py lines 72-78), carrying the current last merged segment:
when the next segment starts less than `0.5` after the current one ends, the
current segment's `end` is overwritten with the next segment's `end`. -/
def mergeFrom (cur : Seg) : List Seg → List Seg
  | [] => [cur]
  | b :: rest =>
      if b.start - cur.stop < 1/2 then mergeFrom ⟨cur.start, b.stop⟩ rest
      else cur :: mergeFrom b rest

/-- `merged` list of `get_speech_segments` (step2_silence.py lines 72-80). -/
def mergeSegs : List Seg → List Seg
  | [] => []
  | a :: rest => mergeFrom a rest

/-- `get_speech_segments(silences, total_duration, padding)`
(step2_silence.py lines 56-80). -/
def get_speech_segments (silences : List Silence) (total_duration padding : ℚ) :
    List Seg :=
  mergeSegs (segsLoop padding total_duration 0 silences)

/-- Membership of a time `t` in the union of a list of closed intervals. -/
def inSegs (l : List Seg) (t : ℚ) : Prop :=
  ∃ i ∈ l, i.start ≤ t ∧ t ≤ i.stop

instance (l : List Seg) (t : ℚ) : Decidable (inSegs l t) := by
  unfold inSegs
  infer_instance

/-- Well-formedness of a silence list as produced by `detect_silences` with
`min_duration = 1.0` (the `DEFAULT_SILENCE_DURATION` used by
`remove_silences`): silences are listed in order, pairwise disjoint, each at
least `1` second long, and contained in `[lo, dur]`. -/
def silencesSorted : ℚ → List (ℚ × ℚ) → ℚ → Prop
  | _, [], _ => True
  | lo, se :: rest, dur =>
      lo ≤ se.1 ∧ se.1 + 1 ≤ se.2 ∧ se.2 ≤ dur ∧ silencesSorted se.2 rest dur

/-- A fully detected silence (its `silence_end` line was seen). -/
def toSilence (se : ℚ × ℚ) : Silence := ⟨se.1, some se.2⟩

/-- Consecutive intervals in the list are separated by a gap of at least
`0.5`, so that the merge loop of `get_speech_segments` leaves the list
unchanged. -/
def sepd : List Seg → Prop
  | a :: b :: r => 1/2 ≤ b.start - a.stop ∧ sepd (b :: r)
  | _ => True

/-! ### Stage 5 — shorts (`step5_shorts.py`) -/

/-- `OUTRO_DURATION`/`MAX_SHORT_TOTAL`/`MAX_SHORT_CONTENT`
(step5_shorts.py lines 29-31). -/
def OUTRO_DURATION : ℚ := 4

def MAX_SHORT_TOTAL : ℚ := 30

def MAX_SHORT_CONTENT : ℚ := MAX_SHORT_TOTAL - OUTRO_DURATION

/-- The running minimum searches of `snap_to_segment_boundaries`
(step5_shorts.py lines 50-68).  The two source loops are textually identical
except for the projection (`seg['start']` against the requested start,
`seg['end']` against the requested end), so both are translated by the same
function parameterised by that projection.  `min_diff` starts at
`float('inf')`, modelled as `none`; a boundary replaces the best candidate
only on strict improvement, so the first minimiser in list order wins. -/
def snapLoop (f : Seg → ℚ) (target : ℚ) : List Seg → ℚ → Option ℚ → ℚ
  | [], best, _ => best
  | seg :: rest, best, mdiff =>
      match mdiff with
      | none => snapLoop f target rest (f seg) (some |f seg - target|)
      | some m =>
          if |f seg - target| < m then
            snapLoop f target rest (f seg) (some |f seg - target|)
          else snapLoop f target rest best (some m)

/-- `snap_to_segment_boundaries(start, end, segments)`
(step5_shorts.py lines 39-74): snap both ends to the nearest transcript
boundaries, then force `end = start + 15` whenever the snapped end does not
lie strictly after the snapped start. -/
def snap_to_segment_boundaries (start stop : ℚ) (segments : List Seg) :
    ℚ × ℚ :=
  if segments = [] then (start, stop)
  else
    let best_start := snapLoop Seg.start start segments start none
    let best_end := snapLoop Seg.stop stop segments stop none
    if best_end ≤ best_start then (best_start, best_start + 15)
    else (best_start, best_end)

/-- A short suggestion as parsed from the language-model response
(`suggest_shorts`, step5_shorts.py lines 77-169): an arbitrary JSON payload,
entirely unvalidated at this point. -/
structure Suggestion where
  title : String
  start : ℚ
  stop : ℚ
deriving DecidableEq

/-- An entry of the `result['shorts']` list built by `generate_shorts`
(step5_shorts.py lines 540-547). -/
structure CreatedShort where
  title : String
  start : ℚ
  stop : ℚ
  duration : ℚ
deriving DecidableEq

/-- The duration validation of `create_short`
(step5_shorts.py lines 379-382): rejected iff the content duration is below
3 s or above `MAX_SHORT_CONTENT` = 26 s. -/
def create_short_duration_ok (start stop : ℚ) : Bool :=
  !(decide (stop - start < 3) || decide (stop - start > MAX_SHORT_CONTENT))

/-- `if '#shorts' not in title.lower(): title = f"{title} #shorts"`
(step5_shorts.py lines 525-526); a pattern occurs in a string iff splitting
on it yields more than one piece. -/
def titleWithShorts (title : String) : String :=
  if (title.toLower.splitOn "#shorts").length = 1 then title ++ " #shorts"
  else title

/-- One iteration of the `generate_shorts` creation loop
(step5_shorts.py lines 522-547) on the suggestion with index `i`: append
`#shorts` to the title, snap to segment boundaries when the transcript has
segments, then run `create_short`; its duration validation is explicit and
everything external to it (source files, ffmpeg, outro) is the oracle
`renderOk i`.  A rejected or failed short yields `none` and is skipped. -/
def processSuggestion (segments : List Seg) (renderOk : ℕ → Bool) (i : ℕ)
    (sug : Suggestion) : Option CreatedShort :=
  let title := titleWithShorts sug.title
  let snapped :=
    if segments = [] then (sug.start, sug.stop)
    else snap_to_segment_boundaries sug.start sug.stop segments
  if create_short_duration_ok snapped.1 snapped.2 && renderOk i then
    some ⟨title, snapped.1, snapped.2, snapped.2 - snapped.1⟩
  else none

/-- Result of `generate_shorts` (step5_shorts.py lines 480-557):
`suggestions_file` is the content written to `shorts_suggestions.json`. -/
structure GenShortsResult where
  success : Bool
  shorts : List CreatedShort
  suggestions_file : Option (List Suggestion)
deriving DecidableEq

/-- `generate_shorts(video_folder, max_shorts)`
(step5_shorts.py lines 480-557) with the language-model response
(`suggest_shorts`) and the per-short ffmpeg outcomes as oracles.  With no
suggestions the stage succeeds with no shorts and writes nothing; otherwise
the raw suggestion list is dumped verbatim into `shorts_suggestions.json`
(lines 506-511) *before* any snapping or duration validation, each
suggestion is processed in order, and the stage reports success whether or
not any short was created (lines 549-556). -/
def generate_shorts_model (suggestions : List Suggestion) (segments : List Seg)
    (renderOk : ℕ → Bool) : GenShortsResult :=
  if suggestions = [] then ⟨true, [], none⟩
  else
    ⟨true,
      suggestions.enum.filterMap (fun p => processSuggestion segments renderOk p.1 p.2),
      some suggestions⟩

/-! ### Stage 7 — B-roll integration (`step7_integrate_broll.py`) -/

/-- A per-project artifact directory: newest write first, contents are
abstract blobs. -/
def fsLookup (fs : List (String × ℕ)) (name : String) : Option ℕ :=
  match fs with
  | [] => none
  | (n, c) :: rest => if n = name then some c else fsLookup rest name

def fsWrite (fs : List (String × ℕ)) (name : String) (content : ℕ) :
    List (String × ℕ) :=
  (name, content) :: fs

/-- An entry of `broll_clips.json` (written by stage 6, read by stage 7). -/
structure BrollClip where
  path : String
  timestamp : ℚ
  duration : ℚ
deriving DecidableEq

/-- The `result` dictionary of `integrate_broll`
(step7_integrate_broll.py lines 40-45). -/
structure IntegrateOutcome where
  success : Bool
  error : Option String
  clips_used : ℕ
deriving DecidableEq

/-- `integrate_broll(video_folder)` (step7_integrate_broll.py lines 25-222).
Missing `nosilence.mp4` is fatal (lines 53-55).  A missing or empty
`broll_clips.json` leads to `shutil.copy(input_path, output_path)` — a
byte-identical copy of `nosilence.mp4` into `illustrated.mp4` — and success
with `clips_used = 0` (lines 57-72).  The non-empty branch (clip
preparation, overlay filter graph and final encode, lines 74-222) runs the
external encoder, modelled by the oracle `encoded`: `some out` is the blob
it produces, `none` a failed run. -/
def integrate_broll_model (fs : List (String × ℕ))
    (clips_json : Option (List BrollClip)) (encoded : Option ℕ) :
    List (String × ℕ) × IntegrateOutcome :=
  match fsLookup fs "nosilence.mp4" with
  | none => (fs, ⟨false, some "nosilence.mp4 manquant", 0⟩)
  | some content =>
      let clips := clips_json.getD []
      if clips.isEmpty then
        (fsWrite fs "illustrated.mp4" content, ⟨true, none, 0⟩)
      else
        match encoded with
        | some out => (fsWrite fs "illustrated.mp4" out, ⟨true, none, clips.length⟩)
        | none => (fs, ⟨false, some "Erreur FFmpeg inconnue", 0⟩)

/-! ### Worker tasks (`tasks.py`) -/

/-- `TOTAL_STEPS = 12  # 0 (convert) + 11 étapes` (tasks.py line 33). -/
def TOTAL_STEPS : ℕ := 12

/-- `STEP_NAMES.get(step, f"Étape {step}")` (tasks.py lines 35-48, 64). -/
def STEP_NAMES : ℕ → String
  | 0 => "Conversion 60fps"
  | 1 => "Fusion vidéos"
  | 2 => "Suppression silences"
  | 3 => "Découpe sources"
  | 4 => "Transcription"
  | 5 => "Génération shorts"
  | 6 => "Téléchargement B-roll"
  | 7 => "Intégration B-roll"
  | 8 => "Génération SEO"
  | 9 => "Génération miniature"
  | 10 => "Programmation YouTube"
  | 11 => "Upload YouTube"
  | n => "Étape " ++ toString n

/-- The project-record fields the pipeline code reads or writes (a MongoDB
document; fields that may be absent or `None` are `Option`s). -/
structure ProjectRecord where
  status : String
  current_step : Option ℕ
  step_name : Option String
  progress : ℤ
  celery_task_id : Option String
  steps : List (String × String)
  error : Option String
deriving DecidableEq

/-- `update_project_status(video_folder, step, status, error)`
(tasks.py lines 51-75).  The float expression
`int((step / TOTAL_STEPS) * 100)` is modelled as the rational floor
`⌊step / 12 * 100⌋`; for every `0 ≤ step ≤ 12` the IEEE-754 double
computation returns the same integer, so the model is exact on the
pipeline's domain.  When `status == "completed"` the progress is then
overwritten with `100`; the error field is written only when an error
message is passed. -/
def update_project_status_model (p : ProjectRecord) (step : ℕ) (status : String)
    (error : Option String) : ProjectRecord :=
  { p with
    status := status
    current_step := some step
    step_name := some (STEP_NAMES step)
    progress :=
      if status = "completed" then 100
      else ⌊((step : ℚ) / (TOTAL_STEPS : ℚ)) * 100⌋
    error := match error with | some e => some e | none => p.error }

/-- The success-path registry update of `task_step10_schedule`
(tasks.py lines 429-436): the project is marked ready for the manual upload
with a hard-coded `progress = 90`. -/
def task_step10_success_update (p : ProjectRecord) : ProjectRecord :=
  { p with
    status := "ready_to_upload"
    progress := 90
    current_step := some 10
    step_name := some "Prêt pour upload YouTube" }

/-- Shared-state effects a stage body can perform. -/
inductive StageEffect where
  | registryWrite (step : ℕ) (status : String)
  | artifactWrite (name : String)
deriving DecidableEq

/-- Entry-time effect trace of `task_step2_silence`
(tasks.py lines 204-225): the body takes `video_folder` from the previous
chain result and immediately calls
`update_project_status(video_folder, 2, "processing")`, then runs
`remove_silences`, which writes `segments.json` whenever `original.mp4` is
present (step2_silence.py lines 113-143).  No comparison with the
registry's `celery_task_id` occurs anywhere in the body; the two handle
parameters exist only so that the claimed revocation property can be
stated — the trace cannot depend on them because the source never reads
them. -/
def task_step2_silence_effects (registry_task_handle submitted_handle : String)
    (original_exists : Bool) : List StageEffect :=
  StageEffect.registryWrite 2 "processing" ::
    (if original_exists then [StageEffect.artifactWrite "segments.json"] else [])

/-- The keys of the `steps` mapping of `process_partial_pipeline`
(tasks.py lines 538-551). -/
def pipeline_steps : List ℕ := [1, 2, 3, 4, 5, 6, 7, 8, 9, 10, 11]

/-- The stage chain built by
`process_partial_pipeline(video_folder, start_step, end_step)`
(tasks.py lines 553-557): every `i` in `range(start_step, end_step + 1)`
that is a key of the `steps` mapping, in order. -/
def process_partial_pipeline_chain (start_step end_step : ℕ) : List ℕ :=
  (List.range' start_step (end_step + 1 - start_step)).filter
    (fun i => decide (i ∈ pipeline_steps))

/-- The stage chain built by `process_full_pipeline`
(tasks.py lines 508-519): stages 1-10, with the explicit comment that the
automatic pipeline ends before the manual YouTube upload. -/
def process_full_pipeline_chain : List ℕ := [1, 2, 3, 4, 5, 6, 7, 8, 9, 10]

/-! ### Project router (`routers/projects.py`) -/

/-- The chain submitted by the reboot endpoint after cleaning the artifact
directory: `process_partial_pipeline.delay(video_folder_path, 1, 12)`
(projects.py line 575). -/
def reboot_chain : List ℕ := process_partial_pipeline_chain 1 12

/-- `files_to_keep` of `reboot_project` (projects.py line 531). -/
def files_to_keep : List String := ["config.json", "screen.mp4", "webcam.mp4"]

/-- Observable outcome of the reboot endpoint. -/
structure RebootOutcome where
  revoked : Option String
  cleaned : List String
  reset : ProjectRecord
  final : ProjectRecord
  chain : List ℕ
deriving DecidableEq

/-- `reboot_project` (projects.py lines 514-590): revoke the project's
current Celery task if one is recorded; delete every entry of the artifact
directory (files and subdirectories alike) whose name is not in
`files_to_keep`; reset the record — note the source resets `current_step`
and `step_name` to `None`, not to `0` — and then submit
`process_partial_pipeline(path, 1, 12)`, storing its id as the new task
handle with status `processing`. -/
def reboot_project_model (p : ProjectRecord) (dir : List String)
    (new_task_id : String) : RebootOutcome :=
  let reset : ProjectRecord :=
    { p with
      status := "created"
      current_step := none
      step_name := none
      progress := 0
      celery_task_id := none
      steps := [] }
  { revoked := p.celery_task_id
    cleaned := dir.filter (fun n => decide (n ∈ files_to_keep))
    reset := reset
    final := { reset with status := "processing", celery_task_id := some new_task_id }
    chain := reboot_chain }

/-- The statuses accepted by the manual upload endpoint
(projects.py line 686). -/
def upload_allowed_statuses : List String :=
  ["ready_to_upload", "completed", "failed"]

/-- Outcome of the manual upload endpoint. -/
inductive UploadDecision where
  | rejected (http_status : ℕ)
  | submitted (chain : List ℕ)
deriving DecidableEq

/-- `start_youtube_upload` (projects.py lines 672-716): unless the project
status is one of `upload_allowed_statuses` the request is rejected with
HTTP 400 and nothing is submitted; otherwise a single
`task_step11_upload` task — stage 11 only — is submitted. -/
def start_youtube_upload_model (p : ProjectRecord) : UploadDecision :=
  if p.status ∈ upload_allowed_statuses then UploadDecision.submitted [11]
  else UploadDecision.rejected 400

/-- A sample in-flight project record, used as concrete input below. -/
def sampleProject : ProjectRecord :=
  { status := "processing"
    current_step := some 7
    step_name := some (STEP_NAMES 7)
    progress := 58
    celery_task_id := some "task-old"
    steps := [("step1_merge", "completed")]
    error := none }

/-! ### Theorems -/

example :
    get_speech_segments [toSilence (2, 4)] 10 (1/10) =
      [⟨0, 21/10⟩, ⟨39/10, 10⟩] := by
  norm_num [get_speech_segments, segsLoop, mergeSegs, mergeFrom, lastEndOf, toSilence]

example : inSegs (get_speech_segments [toSilence (2, 4)] 10 (1/10)) (41/20) := by
  norm_num [get_speech_segments, segsLoop, mergeSegs, mergeFrom, lastEndOf, toSilence,
    inSegs]

theorem lastEndOf_toSilence {se : ℚ × ℚ} (h : se.2 ≠ 0) :
    lastEndOf (toSilence se) = se.2 := by
  simp [lastEndOf, toSilence, h]

theorem inSegs_cons_of {l : List Seg} {t : ℚ} (a : Seg) (h : inSegs l t) :
    inSegs (a :: l) t := by
  obtain ⟨i, hi, h1, h2⟩ := h
  exact ⟨i, List.mem_cons_of_mem a hi, h1, h2⟩

theorem mergeFrom_of_sepd {l : List Seg} (cur : Seg) (h : sepd (cur :: l)) :
    mergeFrom cur l = cur :: l := by
  induction l generalizing cur with
  | nil => simp [mergeFrom]
  | cons b r ih =>
    simp only [sepd] at h
    rw [mergeFrom, if_neg (not_lt.2 (by linarith [h.1])), ih b h.2]

theorem mergeSegs_of_sepd {l : List Seg} (h : sepd l) : mergeSegs l = l := by
  cases l with
  | nil => rfl
  | cons a r => exact mergeFrom_of_sepd a h

@[simp] theorem toSilence_start (se : ℚ × ℚ) : (toSilence se).start = se.1 := rfl

/-- With a non-negative accumulator the `seg_start` expression of
`get_speech_segments` (line 62) collapses to `max 0 (last_end - padding)`:
for `last_end = 0` both branches give `0`. -/
theorem segsLoop_cons (dur lo : ℚ) (hlo : 0 ≤ lo) (s : Silence)
    (rest : List Silence) :
    segsLoop (1/10) dur lo (s :: rest) =
      if min dur (s.start + 1/10) > max 0 (lo - 1/10) + 1/10 then
        Seg.mk (max 0 (lo - 1/10)) (min dur (s.start + 1/10)) ::
          segsLoop (1/10) dur (lastEndOf s) rest
      else segsLoop (1/10) dur (lastEndOf s) rest := by
  simp only [segsLoop]
  by_cases h : lo > 0
  · rw [if_pos h]
  · have h0 : lo = 0 := le_antisymm (not_lt.1 h) hlo
    subst h0
    rw [if_neg h, show max (0:ℚ) (0 - 1/10) = 0 from max_eq_left (by norm_num)]

/-- Every interval produced by the segment loop starts no earlier than
`last_end - padding`. -/
theorem segsLoop_start_lb {dur : ℚ} {sil : List (ℚ × ℚ)} :
    ∀ {lo : ℚ}, 0 ≤ lo → silencesSorted lo sil dur →
      ∀ i ∈ segsLoop (1/10) dur lo (sil.map toSilence), lo - 1/10 ≤ i.start := by
  induction sil with
  | nil =>
    intro lo hlo _ i hi
    simp only [List.map_nil, segsLoop] at hi
    split at hi
    · simp only [List.mem_singleton] at hi
      subst hi
      exact le_trans (by linarith) (le_max_right 0 (lo - 1/10))
    · simp at hi
  | cons se rest ih =>
    intro lo hlo hs i hi
    simp only [silencesSorted] at hs
    obtain ⟨h1, h2, h3, h4⟩ := hs
    have hene : se.2 ≠ 0 := by intro h; rw [h] at h2; linarith
    have he0 : (0:ℚ) ≤ se.2 := by linarith
    have htail : se.2 - 1/10 ≥ lo - 1/10 := by linarith
    rw [List.map_cons, segsLoop_cons dur lo hlo, lastEndOf_toSilence hene] at hi
    simp only [toSilence_start] at hi
    split at hi
    · rcases List.mem_cons.1 hi with hhead | hmem
      · subst hhead
        exact le_trans (by linarith) (le_max_right 0 (lo - 1/10))
      · exact le_trans htail (ih he0 h4 i hmem)
    · exact le_trans htail (ih he0 h4 i hi)

/-- The intervals produced by the segment loop are `0.5`-separated. -/
theorem segsLoop_sepd {dur : ℚ} {sil : List (ℚ × ℚ)} :
    ∀ {lo : ℚ}, 0 ≤ lo → silencesSorted lo sil dur →
      sepd (segsLoop (1/10) dur lo (sil.map toSilence)) := by
  induction sil with
  | nil =>
    intro lo hlo _
    simp only [List.map_nil, segsLoop]
    split
    · simp [sepd]
    · simp [sepd]
  | cons se rest ih =>
    intro lo hlo hs
    simp only [silencesSorted] at hs
    obtain ⟨h1, h2, h3, h4⟩ := hs
    have hene : se.2 ≠ 0 := by intro h; rw [h] at h2; linarith
    have he0 : (0:ℚ) ≤ se.2 := by linarith
    rw [List.map_cons, segsLoop_cons dur lo hlo, lastEndOf_toSilence hene]
    simp only [toSilence_start]
    split
    · rcases htl : segsLoop (1/10) dur se.2 (rest.map toSilence) with _ | ⟨b, tl⟩
      · simp [sepd]
      · refine ⟨?_, htl ▸ ih he0 h4⟩
        have hb : se.2 - 1/10 ≤ b.start :=
          segsLoop_start_lb he0 h4 b (htl ▸ List.mem_cons_self b tl)
        have hstop : min dur (se.1 + 1/10) ≤ se.1 + 1/10 := min_le_right _ _
        simp only
        linarith
    · exact ih he0 h4

theorem silencesSorted_start_le {dur : ℚ} {rest : List (ℚ × ℚ)} :
    ∀ {lo : ℚ}, silencesSorted lo rest dur → ∀ se ∈ rest, lo ≤ se.1 := by
  induction rest with
  | nil => intro lo _ se h; simp at h
  | cons a r ih =>
    intro lo hs se h
    simp only [silencesSorted] at hs
    rcases List.mem_cons.1 h with rfl | hm
    · exact hs.1
    · have := ih hs.2.2.2 se hm
      linarith [hs.1, hs.2.1]

/-- Soundness of the segment loop: every produced interval lies inside
`[0, dur]` and does not reach more than `0.1` into any remaining silence. -/
theorem segsLoop_sound {dur : ℚ} {sil : List (ℚ × ℚ)} :
    ∀ {lo : ℚ}, 0 ≤ lo → silencesSorted lo sil dur →
      ∀ i ∈ segsLoop (1/10) dur lo (sil.map toSilence),
        0 ≤ i.start ∧ i.stop ≤ dur ∧
          ∀ se ∈ sil, i.stop ≤ se.1 + 1/10 ∨ se.2 - 1/10 ≤ i.start := by
  induction sil with
  | nil =>
    intro lo hlo _ i hi
    simp only [List.map_nil, segsLoop] at hi
    split at hi
    · simp only [List.mem_singleton] at hi
      subst hi
      exact ⟨le_max_left 0 _, le_refl _, by simp⟩
    · simp at hi
  | cons se rest ih =>
    intro lo hlo hs i hi
    simp only [silencesSorted] at hs
    obtain ⟨h1, h2, h3, h4⟩ := hs
    have hene : se.2 ≠ 0 := by intro h; rw [h] at h2; linarith
    have he0 : (0:ℚ) ≤ se.2 := by linarith
    rw [List.map_cons, segsLoop_cons dur lo hlo, lastEndOf_toSilence hene] at hi
    simp only [toSilence_start] at hi
    have hrest :
        ∀ i ∈ segsLoop (1/10) dur se.2 (rest.map toSilence),
          0 ≤ i.start ∧ i.stop ≤ dur ∧
            ∀ se2 ∈ se :: rest, i.stop ≤ se2.1 + 1/10 ∨ se2.2 - 1/10 ≤ i.start := by
      intro j hj
      obtain ⟨hj1, hj2, hj3⟩ := ih he0 h4 j hj
      refine ⟨hj1, hj2, ?_⟩
      intro se2 hse2
      rcases List.mem_cons.1 hse2 with hhd | hmem
      · subst hhd
        exact Or.inr (segsLoop_start_lb he0 h4 j hj)
      · exact hj3 se2 hmem
    split at hi
    · rcases List.mem_cons.1 hi with hhead | hmem
      · subst hhead
        refine ⟨le_max_left 0 _, min_le_left _ _, ?_⟩
        · intro se2 hse2
          rcases List.mem_cons.1 hse2 with hhd | hmem2
          · subst hhd
            exact Or.inl (min_le_right _ _)
          · left
            have hchain : se.1 + 1/10 ≤ se2.1 + 1/10 := by
              have := silencesSorted_start_le h4 se2 hmem2
              linarith
            exact le_trans (min_le_right _ _) hchain
      · exact hrest i hmem
    · exact hrest i hi

/-- Coverage of the segment loop: every time in `[0, dur]` that lies strictly
outside all remaining silences (and strictly after the accumulator, except at
the very start) is inside some produced interval. -/
theorem segsLoop_cover {dur : ℚ} {sil : List (ℚ × ℚ)} :
    ∀ {lo : ℚ}, 0 ≤ lo → silencesSorted lo sil dur → 0 < dur →
      ∀ t : ℚ, ((lo = 0 ∧ 0 ≤ t) ∨ lo < t) → t ≤ dur →
        (∀ se ∈ sil, t < se.1 ∨ se.2 < t) →
        inSegs (segsLoop (1/10) dur lo (sil.map toSilence)) t := by
  induction sil with
  | nil =>
    intro lo hlo _ hdur t hinv htdur _
    have hlot : lo ≤ t := by
      rcases hinv with ⟨h0, ht⟩ | h
      · rw [h0]; exact ht
      · exact le_of_lt h
    have ht0 : 0 ≤ t := le_trans hlo hlot
    have hlodur : lo < dur := by
      rcases hinv with ⟨h0, _⟩ | h
      · rw [h0]; exact hdur
      · exact lt_of_lt_of_le h htdur
    simp only [List.map_nil, segsLoop, if_pos hlodur]
    exact ⟨⟨max 0 (lo - 1/10), dur⟩, List.mem_singleton.2 rfl,
      max_le ht0 (by linarith), htdur⟩
  | cons se rest ih =>
    intro lo hlo hs hdur t hinv htdur hout
    simp only [silencesSorted] at hs
    obtain ⟨h1, h2, h3, h4⟩ := hs
    have hene : se.2 ≠ 0 := by intro h; rw [h] at h2; linarith
    have he0 : (0:ℚ) ≤ se.2 := by linarith
    have hlot : lo ≤ t := by
      rcases hinv with ⟨h0, ht⟩ | h
      · rw [h0]; exact ht
      · exact le_of_lt h
    have ht0 : 0 ≤ t := le_trans hlo hlot
    rw [List.map_cons, segsLoop_cons dur lo hlo, lastEndOf_toSilence hene]
    simp only [toSilence_start]
    rcases hout se (List.mem_cons_self se rest) with hlt | hgt
    · -- the time lies before the current silence: it is in the head interval
      have hkeep : min dur (se.1 + 1/10) > max 0 (lo - 1/10) + 1/10 := by
        have hst : max 0 (lo - 1/10) ≤ t := max_le ht0 (by linarith)
        have hd : dur > max 0 (lo - 1/10) + 1/10 := by linarith
        have hse : se.1 + 1/10 > max 0 (lo - 1/10) + 1/10 := by linarith
        exact lt_min hd hse
      rw [if_pos hkeep]
      exact ⟨⟨max 0 (lo - 1/10), min dur (se.1 + 1/10)⟩,
        List.mem_cons_self _ _,
        max_le ht0 (by linarith), le_min htdur (by linarith)⟩
    · -- the time lies after the current silence: recurse
      have htail := ih he0 h4 hdur t (Or.inr hgt) htdur
        (fun se2 h => hout se2 (List.mem_cons_of_mem se h))
      split
      · exact inSegs_cons_of _ htail
      · exact htail

/-- `C1` context: the segment list written to `segments.json` by
`remove_silences`, with the default parameters `padding = 0.1` and
`min_silence = 1.0`, compared against the complement of the silences within
`[0, original_duration]`. -/
theorem get_speech_segments_union (sil : List (ℚ × ℚ)) (dur : ℚ)
    (hs : silencesSorted 0 sil dur) (hdur : 0 < dur) :
    (∀ t : ℚ, 0 ≤ t → t ≤ dur → (∀ se ∈ sil, t < se.1 ∨ se.2 < t) →
        inSegs (get_speech_segments (sil.map toSilence) dur (1/10)) t)
    ∧ (∀ t : ℚ, inSegs (get_speech_segments (sil.map toSilence) dur (1/10)) t →
        0 ≤ t ∧ t ≤ dur ∧
          ∀ se ∈ sil, ¬(se.1 + 1/10 < t ∧ t < se.2 - 1/10)) := by
  have hmerge :
      get_speech_segments (sil.map toSilence) dur (1/10) =
        segsLoop (1/10) dur 0 (sil.map toSilence) := by
    unfold get_speech_segments
    exact mergeSegs_of_sepd (segsLoop_sepd le_rfl hs)
  constructor
  · intro t ht0 htdur hout
    rw [hmerge]
    exact segsLoop_cover le_rfl hs hdur t (Or.inl ⟨rfl, ht0⟩) htdur hout
  · intro t hmem
    rw [hmerge] at hmem
    obtain ⟨i, hi, hit1, hit2⟩ := hmem
    obtain ⟨hi0, hidur, hisil⟩ := segsLoop_sound le_rfl hs i hi
    refine ⟨le_trans hi0 hit1, le_trans hit2 hidur, ?_⟩
    intro se hse
    rcases hisil se hse with h | h
    · intro ⟨ha, _⟩; linarith
    · intro ⟨_, hb⟩; linarith

/-- `C2`: the chain built by `process_full_pipeline` is exactly stages 1-10
— it ends at stage 10 and never contains stage 11 — but the chain submitted
by the reboot endpoint, `process_partial_pipeline(path, 1, 12)`, is stages
1-11 and does contain the stage-11 YouTube upload, contradicting the
source's own comments that stage 11 requires manual approval. -/
theorem automatic_chains_stage11 :
    process_full_pipeline_chain = [1, 2, 3, 4, 5, 6, 7, 8, 9, 10] ∧
    process_full_pipeline_chain.getLast? = some 10 ∧
    11 ∉ process_full_pipeline_chain ∧
    reboot_chain = [1, 2, 3, 4, 5, 6, 7, 8, 9, 10, 11] ∧
    11 ∈ reboot_chain := by decide

/-- `C3` counterexample: a stage body running under a submitted handle that
differs from the registry's current handle does not exit without effects —
`task_step2_silence` still performs its registry status write and (with
`original.mp4` present) the `segments.json` artifact write. -/
theorem task_step2_runs_after_revocation :
    ("task-old" : String) ≠ "task-new" ∧
    task_step2_silence_effects "task-old" "task-new" true =
      [StageEffect.registryWrite 2 "processing",
        StageEffect.artifactWrite "segments.json"] := by
  exact ⟨by decide, rfl⟩

/-- `C3` amended: stage bodies contain no revocation check at all.  The
entry-time effect trace of `task_step2_silence` is independent of whether
the registry's task handle matches the submitted one, is never empty, and
always begins with the `status = "processing"` registry write. -/
theorem task_step2_no_revocation_check
    (registry_task_handle submitted_handle : String) (original_exists : Bool)
    (h : registry_task_handle ≠ submitted_handle) :
    task_step2_silence_effects registry_task_handle submitted_handle
        original_exists =
      task_step2_silence_effects submitted_handle submitted_handle
        original_exists ∧
    task_step2_silence_effects registry_task_handle submitted_handle
        original_exists ≠ [] ∧
    StageEffect.registryWrite 2 "processing" ∈
      task_step2_silence_effects registry_task_handle submitted_handle
        original_exists := by
  refine ⟨rfl, ?_, List.mem_cons_self _ _⟩
  simp [task_step2_silence_effects]

theorem task_step2_no_revocation_check_witness :
    ("task-old" : String) ≠ "task-new" ∧
    StageEffect.registryWrite 2 "processing" ∈
      task_step2_silence_effects "task-old" "task-new" false := by
  have hne : ("task-old" : String) ≠ "task-new" := by decide
  exact ⟨hne, (task_step2_no_revocation_check "task-old" "task-new" false hne).2.2⟩

/-- `C4` counterexample: rebooting a project does not reset `current_step`
to `0` — the source resets it to `None` (projects.py line 563). -/
theorem reboot_current_step_not_zero :
    (reboot_project_model sampleProject
        ["config.json", "screen.mp4", "webcam.mp4", "original.mp4"]
        "task-new").reset.current_step = none ∧
    (reboot_project_model sampleProject
        ["config.json", "screen.mp4", "webcam.mp4", "original.mp4"]
        "task-new").final.current_step ≠ some 0 := by
  exact ⟨rfl, by simp [reboot_project_model, sampleProject]⟩

/-- `C4` amended: reboot revokes the recorded task handle, keeps exactly the
seed set `{config.json, screen.mp4, webcam.mp4}` of the artifact directory,
resets the record to `status = created` with `progress = 0`, cleared
`steps`, and `current_step` cleared to null (not `0`), then submits the
chain of stages 1-11 (not 1-10) whose new handle replaces the old one. -/
theorem reboot_project_spec (p : ProjectRecord) (dir : List String)
    (new_task_id : String) :
    (reboot_project_model p dir new_task_id).revoked = p.celery_task_id ∧
    (∀ f ∈ dir,
      f ∈ (reboot_project_model p dir new_task_id).cleaned ↔
        f ∈ files_to_keep) ∧
    (∀ f ∈ (reboot_project_model p dir new_task_id).cleaned, f ∈ dir) ∧
    (reboot_project_model p dir new_task_id).reset.status = "created" ∧
    (reboot_project_model p dir new_task_id).reset.current_step = none ∧
    (reboot_project_model p dir new_task_id).reset.progress = 0 ∧
    (reboot_project_model p dir new_task_id).reset.steps = [] ∧
    (reboot_project_model p dir new_task_id).final.status = "processing" ∧
    (reboot_project_model p dir new_task_id).final.celery_task_id =
      some new_task_id ∧
    (reboot_project_model p dir new_task_id).chain =
      [1, 2, 3, 4, 5, 6, 7, 8, 9, 10, 11] := by
  have hchain : reboot_chain = [1, 2, 3, 4, 5, 6, 7, 8, 9, 10, 11] := by decide
  refine ⟨rfl, ?_, ?_, rfl, rfl, rfl, rfl, rfl, rfl, hchain⟩
  · intro f hf
    simp [reboot_project_model, List.mem_filter, hf]
  · intro f hf
    simp only [reboot_project_model, List.mem_filter] at hf
    exact hf.1

theorem reboot_project_spec_witness :
    "original.mp4" ∈ (["config.json", "original.mp4"] : List String) ∧
    ("original.mp4" ∈ (reboot_project_model sampleProject
        ["config.json", "original.mp4"] "task-new").cleaned ↔
      "original.mp4" ∈ files_to_keep) :=
  ⟨by simp,
    (reboot_project_spec sampleProject ["config.json", "original.mp4"]
        "task-new").2.1 "original.mp4" (by simp)⟩

/-- `C7`: with `broll_clips.json` absent or an empty list (and the stage
input `nosilence.mp4` present), `integrate_broll` succeeds and
`illustrated.mp4` is written as a byte-identical copy of `nosilence.mp4`;
identical blobs decode to identical durations, expressed by quantifying
over every decoded-duration assignment. -/
theorem integrate_broll_empty_copy (fs : List (String × ℕ))
    (clips_json : Option (List BrollClip)) (encoded : Option ℕ) (c : ℕ)
    (hin : fsLookup fs "nosilence.mp4" = some c)
    (hempty : clips_json = none ∨ clips_json = some []) :
    (integrate_broll_model fs clips_json encoded).2.success = true ∧
    (integrate_broll_model fs clips_json encoded).2.error = none ∧
    fsLookup (integrate_broll_model fs clips_json encoded).1
        "illustrated.mp4" = some c ∧
    ∀ decodedDuration : ℕ → ℚ,
      Option.map decodedDuration
          (fsLookup (integrate_broll_model fs clips_json encoded).1
            "illustrated.mp4") =
        Option.map decodedDuration (fsLookup fs "nosilence.mp4") := by
  have hclips : clips_json = some ([] : List BrollClip) ∨ clips_json = none := by
    tauto
  rcases hempty with rfl | rfl <;>
    simp [integrate_broll_model, hin, fsWrite, fsLookup]

theorem integrate_broll_empty_copy_witness :
    fsLookup [("nosilence.mp4", 7)] "nosilence.mp4" = some 7 ∧
    fsLookup (integrate_broll_model [("nosilence.mp4", 7)] none none).1
        "illustrated.mp4" = some 7 :=
  ⟨rfl,
    (integrate_broll_empty_copy [("nosilence.mp4", 7)] none none 7 rfl
        (Or.inl rfl)).2.2.1⟩

/-- `C8`: the manual upload endpoint submits a chain containing stage 11
only, exactly when the project status is `ready_to_upload`, `completed` or
`failed`; any other status is rejected with HTTP 400 and nothing is
submitted. -/
theorem start_youtube_upload_gate (p : ProjectRecord) :
    (start_youtube_upload_model p = UploadDecision.submitted [11] ↔
      p.status ∈ upload_allowed_statuses) ∧
    (p.status ∉ upload_allowed_statuses →
      start_youtube_upload_model p = UploadDecision.rejected 400) := by
  by_cases h : p.status ∈ upload_allowed_statuses <;>
    simp [start_youtube_upload_model, h]

theorem start_youtube_upload_gate_witness :
    start_youtube_upload_model
        { sampleProject with status := "ready_to_upload" } =
      UploadDecision.submitted [11] ∧
    start_youtube_upload_model sampleProject = UploadDecision.rejected 400 :=
  ⟨(start_youtube_upload_gate _).1.mpr (by decide),
    (start_youtube_upload_gate sampleProject).2 (by decide)⟩

/-- `C9`: whenever a stage `k ≤ 12` marks itself `processing`, the recorded
progress is the integer percent `⌊(k / TOTAL_STEPS) * 100⌋ = k * 100 / 12`;
and the success path of stage 10 records `progress = 90` with status
`ready_to_upload`. -/
theorem progress_is_integer_percent :
    (∀ (p : ProjectRecord) (step : ℕ) (err : Option String), step ≤ 12 →
      (update_project_status_model p step "processing" err).progress =
        ((step * 100 / TOTAL_STEPS : ℕ) : ℤ)) ∧
    (∀ p : ProjectRecord,
      (task_step10_success_update p).progress = 90 ∧
      (task_step10_success_update p).status = "ready_to_upload") := by
  constructor
  · intro p step err hstep
    simp only [update_project_status_model,
      if_neg (by decide : ¬("processing" : String) = "completed")]
    interval_cases step <;> norm_num [TOTAL_STEPS, Int.floor_eq_iff]
  · intro p
    exact ⟨rfl, rfl⟩

theorem progress_is_integer_percent_witness :
    (update_project_status_model sampleProject 10 "processing" none).progress =
      83 ∧
    (task_step10_success_update sampleProject).progress = 90 := by
  refine ⟨?_, (progress_is_integer_percent.2 sampleProject).1⟩
  have h := progress_is_integer_percent.1 sampleProject 10 none (by norm_num)
  rw [h]
  norm_num [TOTAL_STEPS]

/-- `C1` counterexample: with the single detected silence `[2, 4]` in a
10-second video, the written segment list covers the time `2.05`, which
lies strictly inside the silence — the kept segments extend `0.1` into each
adjacent silence, so their union is a strict superset of the complement of
the silences within `[0, 10]` (padding the segments further only enlarges
the union, so the equality fails under either reading of "padded"). -/
theorem segments_union_not_complement :
    inSegs (get_speech_segments [toSilence (2, 4)] 10 (1/10)) (41/20) ∧
    (0:ℚ) ≤ 41/20 ∧ (41/20:ℚ) ≤ 10 ∧ (2:ℚ) ≤ 41/20 ∧ (41/20:ℚ) ≤ 4 := by
  refine ⟨?_, by norm_num, by norm_num, by norm_num, by norm_num⟩
  norm_num [get_speech_segments, segsLoop, mergeSegs, mergeFrom, lastEndOf,
    toSilence, inSegs]

theorem get_speech_segments_union_witness :
    inSegs (get_speech_segments (List.map toSilence [((2:ℚ), (4:ℚ))]) 10 (1/10))
      1 :=
  (get_speech_segments_union [(2, 4)] 10 (by norm_num [silencesSorted])
      (by norm_num)).1 1 (by norm_num) (by norm_num)
    (by intro se hse; rw [List.mem_singleton] at hse; subst hse; norm_num)

/-- Invariant of the running-minimum search: starting from a candidate whose
distance to the target is the recorded minimum, the loop returns the
candidate or some later boundary, never increases the distance, and ends at
most as far from the target as every boundary in the list. -/
theorem snapLoop_spec (f : Seg → ℚ) (target : ℚ) :
    ∀ (segs : List Seg) (best : ℚ),
      (snapLoop f target segs best (some |best - target|) = best ∨
        ∃ s ∈ segs, snapLoop f target segs best (some |best - target|) = f s) ∧
      |snapLoop f target segs best (some |best - target|) - target| ≤
        |best - target| ∧
      ∀ s ∈ segs,
        |snapLoop f target segs best (some |best - target|) - target| ≤
          |f s - target| := by
  intro segs
  induction segs with
  | nil => exact fun best => ⟨Or.inl rfl, le_refl _, by simp⟩
  | cons seg rest ih =>
    intro best
    by_cases h : |f seg - target| < |best - target|
    · have heq : snapLoop f target (seg :: rest) best (some |best - target|) =
          snapLoop f target rest (f seg) (some |f seg - target|) := by
        simp only [snapLoop, if_pos h]
      obtain ⟨hmem, hle, hall⟩ := ih (f seg)
      rw [heq]
      refine ⟨?_, le_trans hle (le_of_lt h), ?_⟩
      · rcases hmem with h1 | ⟨s, hs, h2⟩
        · exact Or.inr ⟨seg, List.mem_cons_self _ _, h1⟩
        · exact Or.inr ⟨s, List.mem_cons_of_mem _ hs, h2⟩
      · intro s hs
        rcases List.mem_cons.1 hs with rfl | hmem2
        · exact hle
        · exact hall s hmem2
    · have heq : snapLoop f target (seg :: rest) best (some |best - target|) =
          snapLoop f target rest best (some |best - target|) := by
        simp only [snapLoop, if_neg h]
      obtain ⟨hmem, hle, hall⟩ := ih best
      rw [heq]
      refine ⟨?_, hle, ?_⟩
      · rcases hmem with h1 | ⟨s, hs, h2⟩
        · exact Or.inl h1
        · exact Or.inr ⟨s, List.mem_cons_of_mem _ hs, h2⟩
      · intro s hs
        rcases List.mem_cons.1 hs with rfl | hmem2
        · exact le_trans hle (not_lt.1 h)
        · exact hall s hmem2

/-- On a non-empty list the search (started with `min_diff = inf`) returns a
boundary of some listed segment, of minimal distance to the target. -/
theorem snapLoop_none_spec (f : Seg → ℚ) (target b0 : ℚ) (seg : Seg)
    (rest : List Seg) :
    (∃ s ∈ seg :: rest, snapLoop f target (seg :: rest) b0 none = f s) ∧
    ∀ s ∈ seg :: rest,
      |snapLoop f target (seg :: rest) b0 none - target| ≤ |f s - target| := by
  have heq : snapLoop f target (seg :: rest) b0 none =
      snapLoop f target rest (f seg) (some |f seg - target|) := by
    simp only [snapLoop]
  obtain ⟨hmem, hle, hall⟩ := snapLoop_spec f target rest (f seg)
  rw [heq]
  constructor
  · rcases hmem with h1 | ⟨s, hs, h2⟩
    · exact ⟨seg, List.mem_cons_self _ _, h1⟩
    · exact ⟨s, List.mem_cons_of_mem _ hs, h2⟩
  · intro s hs
    rcases List.mem_cons.1 hs with rfl | hmem2
    · exact hle
    · exact hall s hmem2

/-- Unfolding of `snap_to_segment_boundaries` on a non-empty transcript. -/
theorem snap_to_segment_boundaries_eq (start stop : ℚ) (seg : Seg)
    (rest : List Seg) :
    snap_to_segment_boundaries start stop (seg :: rest) =
      if snapLoop Seg.stop stop (seg :: rest) stop none ≤
          snapLoop Seg.start start (seg :: rest) start none then
        (snapLoop Seg.start start (seg :: rest) start none,
          snapLoop Seg.start start (seg :: rest) start none + 15)
      else
        (snapLoop Seg.start start (seg :: rest) start none,
          snapLoop Seg.stop stop (seg :: rest) stop none) := by
  simp only [snap_to_segment_boundaries, if_neg (List.cons_ne_nil seg rest)]

/-- The snapped start is always a listed segment start, and the snapped end
is a listed segment end unless it was forced to `start + 15`. -/
theorem snap_boundaries_mem (start stop : ℚ) (seg : Seg) (rest : List Seg) :
    (∃ s ∈ seg :: rest,
      (snap_to_segment_boundaries start stop (seg :: rest)).1 = s.start) ∧
    ((∃ s ∈ seg :: rest,
        (snap_to_segment_boundaries start stop (seg :: rest)).2 = s.stop) ∨
      (snap_to_segment_boundaries start stop (seg :: rest)).2 =
        (snap_to_segment_boundaries start stop (seg :: rest)).1 + 15) := by
  rw [snap_to_segment_boundaries_eq]
  obtain ⟨⟨s1, hs1, he1⟩, _⟩ := snapLoop_none_spec Seg.start start start seg rest
  obtain ⟨⟨s2, hs2, he2⟩, _⟩ := snapLoop_none_spec Seg.stop stop stop seg rest
  by_cases hc : snapLoop Seg.stop stop (seg :: rest) stop none ≤
      snapLoop Seg.start start (seg :: rest) start none
  · rw [if_pos hc]
    exact ⟨⟨s1, hs1, he1⟩, Or.inr rfl⟩
  · rw [if_neg hc]
    exact ⟨⟨s1, hs1, he1⟩, Or.inl ⟨s2, hs2, he2⟩⟩

theorem create_short_duration_ok_iff {a b : ℚ} :
    create_short_duration_ok a b = true ↔ 3 ≤ b - a ∧ b - a ≤ 26 := by
  have hmc : MAX_SHORT_CONTENT = 26 := by
    norm_num [MAX_SHORT_CONTENT, MAX_SHORT_TOTAL, OUTRO_DURATION]
  simp [create_short_duration_ok, hmc, not_lt]

/-- What a successfully created short looks like: its duration passed the
`[3, 26]` gate of `create_short`, and (with a non-empty transcript) its
endpoints come from `snap_to_segment_boundaries`. -/
theorem processSuggestion_some {segments : List Seg} {renderOk : ℕ → Bool}
    {i : ℕ} {sug : Suggestion} {sh : CreatedShort}
    (h : processSuggestion segments renderOk i sug = some sh) :
    3 ≤ sh.duration ∧ sh.duration ≤ 26 ∧ sh.duration = sh.stop - sh.start ∧
    (segments ≠ [] →
      (∃ s ∈ segments, sh.start = s.start) ∧
      ((∃ s ∈ segments, sh.stop = s.stop) ∨ sh.stop = sh.start + 15)) := by
  rcases segments with _ | ⟨seg, rest⟩
  · simp only [processSuggestion, eq_self_iff_true, if_true] at h
    by_cases hcond :
        (create_short_duration_ok sug.start sug.stop && renderOk i) = true
    · rw [if_pos hcond, Option.some.injEq] at h
      subst h
      rw [Bool.and_eq_true] at hcond
      have hdur := create_short_duration_ok_iff.1 hcond.1
      exact ⟨hdur.1, hdur.2, rfl, fun hne => absurd rfl hne⟩
    · rw [if_neg hcond] at h
      exact absurd h (by simp)
  · simp only [processSuggestion, if_neg (List.cons_ne_nil seg rest)] at h
    by_cases hcond :
        (create_short_duration_ok
            (snap_to_segment_boundaries sug.start sug.stop (seg :: rest)).1
            (snap_to_segment_boundaries sug.start sug.stop (seg :: rest)).2 &&
          renderOk i) = true
    · rw [if_pos hcond, Option.some.injEq] at h
      subst h
      rw [Bool.and_eq_true] at hcond
      have hdur := create_short_duration_ok_iff.1 hcond.1
      refine ⟨hdur.1, hdur.2, rfl, fun _ => ?_⟩
      exact snap_boundaries_mem sug.start sug.stop seg rest
    · rw [if_neg hcond] at h
      exact absurd h (by simp)

theorem snap_fst (start stop : ℚ) (seg : Seg) (rest : List Seg) :
    (snap_to_segment_boundaries start stop (seg :: rest)).1 =
      snapLoop Seg.start start (seg :: rest) start none := by
  rw [snap_to_segment_boundaries_eq]
  split_ifs <;> rfl

/-- `C10` amended: on a non-empty transcript segment list
`snap_to_segment_boundaries` always returns a window with `end > start`:
whenever the nearest-boundary candidates would give `end ≤ start` the
returned end is forced to `start + 15` (which may, but need not, coincide
with a segment boundary). -/
theorem snap_end_gt_start (start stop : ℚ) (segments : List Seg)
    (h : segments ≠ []) :
    (snap_to_segment_boundaries start stop segments).1 <
      (snap_to_segment_boundaries start stop segments).2 ∧
    (snapLoop Seg.stop stop segments stop none ≤
        snapLoop Seg.start start segments start none →
      snap_to_segment_boundaries start stop segments =
        (snapLoop Seg.start start segments start none,
          snapLoop Seg.start start segments start none + 15)) := by
  rcases segments with _ | ⟨seg, rest⟩
  · exact absurd rfl h
  · rw [snap_to_segment_boundaries_eq]
    by_cases hc : snapLoop Seg.stop stop (seg :: rest) stop none ≤
        snapLoop Seg.start start (seg :: rest) start none
    · rw [if_pos hc]
      exact ⟨by norm_num, fun _ => rfl⟩
    · rw [if_neg hc]
      exact ⟨not_le.1 hc, fun h2 => absurd h2 hc⟩

theorem snap_end_gt_start_witness :
    ([(⟨0, 2⟩ : Seg)] ≠ []) ∧
    (snap_to_segment_boundaries 0 0 [(⟨0, 2⟩ : Seg)]).1 <
      (snap_to_segment_boundaries 0 0 [(⟨0, 2⟩ : Seg)]).2 :=
  ⟨by simp, (snap_end_gt_start 0 0 [⟨0, 2⟩] (by simp)).1⟩

/-- `C10` counterexample: the forced end `start + 15` can coincide with a
segment boundary, so "the returned end is not a segment boundary" is false.
With segments `[0, 2]` and `[4, 19]` and the requested window `(4.1, 0)`:
the snapped start is `4`, the nearest end candidate is `2 ≤ 4`, so the end
is forced to `4 + 15 = 19` — exactly the second segment's end. -/
theorem snap_forced_end_is_boundary :
    snap_to_segment_boundaries (41/10) 0 [⟨0, 2⟩, ⟨4, 19⟩] = (4, 19) ∧
    snapLoop Seg.stop 0 [(⟨0, 2⟩ : Seg), ⟨4, 19⟩] 0 none ≤
      snapLoop Seg.start (41/10) [(⟨0, 2⟩ : Seg), ⟨4, 19⟩] (41/10) none ∧
    ∃ s ∈ [(⟨0, 2⟩ : Seg), ⟨4, 19⟩],
      (snap_to_segment_boundaries (41/10) 0 [⟨0, 2⟩, ⟨4, 19⟩]).2 = s.stop := by
  have heval :
      snap_to_segment_boundaries (41/10) 0 [(⟨0, 2⟩ : Seg), ⟨4, 19⟩] =
        (4, 19) := by
    norm_num [snap_to_segment_boundaries, snapLoop, abs, max_def, List.cons_ne_nil]
  refine ⟨heval, by norm_num [snapLoop, abs, max_def], ?_⟩
  exact ⟨⟨4, 19⟩, by simp, by rw [heval]⟩

/-- `C6` amended: with a non-empty transcript, stage 5 replaces the
window's start with a segment start of minimal distance to the suggested
start, and the window's end with a segment end of minimal distance to the
suggested end — except when that end candidate does not lie strictly after
the snapped start, in which case the end is `start + 15` instead; a window
whose resulting duration falls outside `[3, 26]` produces no short, and the
stage succeeds regardless (also with zero shorts). -/
theorem snap_minimal_and_duration_gate (start stop : ℚ) (seg : Seg)
    (rest : List Seg) (suggestions : List Suggestion) (segments : List Seg)
    (renderOk : ℕ → Bool) :
    (∃ s ∈ seg :: rest,
      (snap_to_segment_boundaries start stop (seg :: rest)).1 = s.start ∧
      ∀ s2 ∈ seg :: rest, |s.start - start| ≤ |s2.start - start|) ∧
    (¬(snapLoop Seg.stop stop (seg :: rest) stop none ≤
        snapLoop Seg.start start (seg :: rest) start none) →
      ∃ s ∈ seg :: rest,
        (snap_to_segment_boundaries start stop (seg :: rest)).2 = s.stop ∧
        ∀ s2 ∈ seg :: rest, |s.stop - stop| ≤ |s2.stop - stop|) ∧
    (generate_shorts_model suggestions segments renderOk).success = true ∧
    (∀ sh ∈ (generate_shorts_model suggestions segments renderOk).shorts,
      3 ≤ sh.duration ∧ sh.duration ≤ 26) := by
  obtain ⟨⟨s1, hs1, he1⟩, hall1⟩ :=
    snapLoop_none_spec Seg.start start start seg rest
  obtain ⟨⟨s2, hs2, he2⟩, hall2⟩ :=
    snapLoop_none_spec Seg.stop stop stop seg rest
  refine ⟨⟨s1, hs1, ?_, ?_⟩, ?_, ?_, ?_⟩
  · rw [snap_fst]
    exact he1
  · intro s2m hs2m
    have := hall1 s2m hs2m
    rwa [he1] at this
  · intro hc
    refine ⟨s2, hs2, ?_, ?_⟩
    · rw [snap_to_segment_boundaries_eq, if_neg hc]
      exact he2
    · intro s2m hs2m
      have := hall2 s2m hs2m
      rwa [he2] at this
  · unfold generate_shorts_model
    split <;> rfl
  · intro sh hsh
    unfold generate_shorts_model at hsh
    split at hsh
    · simp at hsh
    · simp only [List.mem_filterMap] at hsh
      obtain ⟨p, _, hps⟩ := hsh
      have hp := processSuggestion_some hps
      exact ⟨hp.1, hp.2.1⟩

theorem snap_minimal_and_duration_gate_witness :
    ∃ s ∈ [(⟨0, 2⟩ : Seg)],
      (snap_to_segment_boundaries 1 5 [(⟨0, 2⟩ : Seg)]).2 = s.stop ∧
      ∀ s2 ∈ [(⟨0, 2⟩ : Seg)], |s.stop - 5| ≤ |s2.stop - 5| :=
  (snap_minimal_and_duration_gate 1 5 ⟨0, 2⟩ [] [] [] (fun _ => true)).2.1
    (by norm_num [snapLoop, abs, max_def])

/-- `C6` counterexample: with segments `[0, 1]` and `[10, 11]` and the
suggested window `(9.9, 1.2)`, the segment end of minimal distance to the
suggested end is `1`, but the snapped start is `10` and `1 ≤ 10`, so the
code replaces the end with `10 + 15 = 25` — which is strictly farther from
the suggested end than `1` and is no segment end at all. -/
theorem snap_end_not_minimal_distance :
    snap_to_segment_boundaries (99/10) (6/5) [⟨0, 1⟩, ⟨10, 11⟩] = (10, 25) ∧
    |(1:ℚ) - 6/5| < |(25:ℚ) - 6/5| ∧
    (1:ℚ) = Seg.stop ⟨0, 1⟩ ∧
    ¬∃ s ∈ [(⟨0, 1⟩ : Seg), ⟨10, 11⟩],
      (snap_to_segment_boundaries (99/10) (6/5) [⟨0, 1⟩, ⟨10, 11⟩]).2 =
        s.stop := by
  have heval :
      snap_to_segment_boundaries (99/10) (6/5) [(⟨0, 1⟩ : Seg), ⟨10, 11⟩] =
        (10, 25) := by
    norm_num [snap_to_segment_boundaries, snapLoop, abs, max_def, List.cons_ne_nil]
  refine ⟨heval, by norm_num [abs, max_def], rfl, ?_⟩
  rw [heval]
  rintro ⟨s, hs, he⟩
  simp only [List.mem_cons, List.not_mem_nil, or_false] at hs
  rcases hs with rfl | rfl
  · norm_num at he
  · norm_num at he

/-- `C5` amended: `shorts_suggestions.json` records the raw language-model
suggestions, written before any validation, so no duration or boundary
guarantee holds of it; the `[3, 26]` duration bound and the
boundary property hold instead of every short the stage actually creates:
each created short has duration in `[3, 26]` and, when the transcript has
segments, its start is some segment's start and its end is some segment's
end unless forced to `start + 15`. -/
theorem created_shorts_invariant (suggestions : List Suggestion)
    (segments : List Seg) (renderOk : ℕ → Bool) :
    ((generate_shorts_model suggestions segments renderOk).suggestions_file =
        if suggestions = [] then none else some suggestions) ∧
    ∀ sh ∈ (generate_shorts_model suggestions segments renderOk).shorts,
      3 ≤ sh.duration ∧ sh.duration ≤ 26 ∧
      sh.duration = sh.stop - sh.start ∧
      (segments ≠ [] →
        (∃ s ∈ segments, sh.start = s.start) ∧
        ((∃ s ∈ segments, sh.stop = s.stop) ∨ sh.stop = sh.start + 15)) := by
  constructor
  · unfold generate_shorts_model
    split
    · rfl
    · rfl
  · intro sh hsh
    unfold generate_shorts_model at hsh
    split at hsh
    · simp at hsh
    · simp only [List.mem_filterMap] at hsh
      obtain ⟨p, _, hps⟩ := hsh
      exact processSuggestion_some hps

/-- `C5` counterexample: `generate_shorts` writes the raw suggestion
`(0, 100)` verbatim into `shorts_suggestions.json` even though its duration
`100` is far outside `[3, 26]` and its end `100` equals no transcript
segment boundary — the file is written before any snapping or
validation. -/
theorem shorts_suggestions_file_unvalidated :
    (generate_shorts_model [⟨"Demo", 0, 100⟩] [⟨0, 5⟩]
        (fun _ => true)).suggestions_file = some [⟨"Demo", 0, 100⟩] ∧
    ¬((100:ℚ) - 0 ≤ 26) ∧
    ¬∃ s ∈ [(⟨0, 5⟩ : Seg)], (100:ℚ) = s.stop := by
  refine ⟨rfl, by norm_num, ?_⟩
  rintro ⟨s, hs, he⟩
  rw [List.mem_singleton] at hs
  subst hs
  norm_num at he

theorem created_shorts_invariant_witness :
    3 ≤ (⟨titleWithShorts "a", 0, 10, 10⟩ : CreatedShort).duration ∧
    (⟨titleWithShorts "a", 0, 10, 10⟩ : CreatedShort).duration ≤ 26 := by
  have hone : processSuggestion [(⟨0, 1⟩ : Seg), ⟨2, 10⟩] (fun _ => true) 0
      ⟨"a", 0, 10⟩ = some ⟨titleWithShorts "a", 0, 10, 10⟩ := by
    norm_num [processSuggestion, snap_to_segment_boundaries, snapLoop,
      create_short_duration_ok, MAX_SHORT_CONTENT, MAX_SHORT_TOTAL,
      OUTRO_DURATION, abs, max_def, List.cons_ne_nil]
  have hmem : (⟨titleWithShorts "a", 0, 10, 10⟩ : CreatedShort) ∈
      (generate_shorts_model [⟨"a", 0, 10⟩] [⟨0, 1⟩, ⟨2, 10⟩]
        (fun _ => true)).shorts := by
    unfold generate_shorts_model
    rw [if_neg (by simp : ¬([(⟨"a", 0, 10⟩ : Suggestion)] = []))]
    simp only [List.enum, List.enumFrom, List.filterMap_cons, hone]
    simp
  have h := (created_shorts_invariant [⟨"a", 0, 10⟩] [⟨0, 1⟩, ⟨2, 10⟩]
    (fun _ => true)).2 _ hmem
  exact ⟨h.1, h.2.1⟩
